import Mathlib

/-!
Verification of the kilocode inline-autocomplete engine specification against
a shallow embedding of the TypeScript sources.

Strings are modelled as lists of characters (type `Str`), so that every
operation is an executable, structurally recursive Lean function mirroring the
corresponding JavaScript string operation.  The embedded code comes from:

* src/services/autocomplete/utils/AutocompleteDebouncer.ts
* src/services/autocomplete/AutocompleteProvider.ts
* src/services/autocomplete/CompletionState.ts
* src/services/autocomplete/context/snippetProvider.ts
* src/services/autocomplete/PromptRenderer.ts
* src/services/autocomplete/templating/AutocompleteTemplate.ts
-/
set_option autoImplicit false

/-- Strings as explicit character lists. -/
abbrev Str := List Char

/-- Conversion from a Lean string literal to the character-list model. -/
def str (s : String) : Str := s.toList

/-- Whitespace as recognised by the JavaScript `trim` method, restricted to
the ASCII range (the only range the embedded code ever produces). -/
def jsWhitespace (c : Char) : Bool :=
  c = ' ' || c = '\t' || c = '\n' || c = '\r' || c = '\x0b' || c = '\x0c'

/-- Remove trailing whitespace, as the right half of JavaScript `trim`. -/
def trimRight (s : Str) : Str :=
  (s.reverse.dropWhile jsWhitespace).reverse

/-- JavaScript `String.prototype.trim`: drop whitespace from both ends. -/
def trimJS (s : Str) : Str :=
  (trimRight s).dropWhile jsWhitespace

/-- A character matched by the regular-expression class `[\w-]` used by the
markdown-fence regexes: letters, digits, underscore or dash. -/
def wordDash (c : Char) : Bool :=
  c.isAlpha || c.isDigit || c = '_' || c = '-'

/-- Split a character list at every occurrence of `sep`, JavaScript
`String.prototype.split` with a single-character separator. -/
def splitOnChar (sep : Char) : Str → List Str
  | [] => [[]]
  | c :: cs =>
    if c = sep then [] :: splitOnChar sep cs
    else
      match splitOnChar sep cs with
      | [] => [[c]]
      | l :: ls => (c :: l) :: ls

/-- Join a list of lines with the separator `sep`, JavaScript
`Array.prototype.join` with a single-character separator. -/
def joinWith (sep : Char) : List Str → Str
  | [] => []
  | [l] => l
  | l :: l2 :: ls => l ++ sep :: joinWith sep (l2 :: ls)

/-- `text.split("\n")` of the sources. -/
def splitLines : Str → List Str := splitOnChar '\n'

/-- `lines.join("\n")` of the sources. -/
def joinLines : List Str → Str := joinWith '\n'

/-! ### cleanMarkdownCodeBlocks (AutocompleteProvider.ts lines 641-659)

The JavaScript method applies five regular-expression substitutions and a
final `trim`.  Each substitution is embedded as a left-to-right scanner with
the exact non-overlapping `/g` semantics of `String.prototype.replace`. -/
/-- Does the list begin with three backticks (the fence marker of every
regex in the method)? -/
def startsWithFence : Str → Bool
  | '`' :: '`' :: '`' :: _ => true
  | _ => false

/-- Does the list contain three consecutive backticks anywhere? -/
def hasFence : Str → Bool
  | [] => false
  | c :: cs => startsWithFence (c :: cs) || hasFence cs

/-- Match the opening of the pattern <triple backtick>`[\w-]*\n` at the head
of the list; on success return the remainder after the newline.  The `[\w-]*`
repetition is greedy, and no backtracking can help: a shorter repetition
always leaves a word character, never the required newline. -/
def matchFenceOpen : Str → Option Str
  | '`' :: '`' :: '`' :: rest =>
    match rest.dropWhile wordDash with
    | '\n' :: rs => some rs
    | _ => none
  | _ => none

/-- Find the first occurrence of `"\n"` followed by a triple backtick (the
lazy `([\s\S]*?)\n` + fence of the first regex); return the content before it
and the remainder after it. -/
def findFenceClose : Str → Option (Str × Str)
  | [] => none
  | '\n' :: '`' :: '`' :: '`' :: rs => some ([], rs)
  | c :: cs =>
    match findFenceClose cs with
    | some pr => some (c :: pr.1, pr.2)
    | none => none

/-- First substitution, fuelled scanner: replace every complete fenced block
(pattern <fence>`[\w-]*\n([\s\S]*?)\n`<fence>) by its content, scanning left
to right and resuming after each match.  Each step consumes at least one
character, so fuel equal to the length of the input is always sufficient. -/
def replaceFencedBlocksF : Nat → Str → Str
  | 0, s => s
  | _ + 1, [] => []
  | fuel + 1, c :: cs =>
    match matchFenceOpen (c :: cs) with
    | some contentStart =>
      match findFenceClose contentStart with
      | some pr => pr.1 ++ replaceFencedBlocksF fuel pr.2
      | none => c :: replaceFencedBlocksF fuel cs
    | none => c :: replaceFencedBlocksF fuel cs

/-- `text.replace(<complete blocks>, "$1")`. -/
def replaceFencedBlocks (s : Str) : Str := replaceFencedBlocksF s.length s

/-- Second substitution: remove an opening fence marker at the very beginning
of the text (pattern anchored with `^`, hence at most one match). -/
def dropLeadingFence (s : Str) : Str :=
  match matchFenceOpen s with
  | some rest => rest
  | none => s

/-- Match the mid-text opening-fence pattern `"\n"`<fence>`[\w-]*\n` at the
head of the list; on success return the remainder after the trailing
newline. -/
def matchMidFence : Str → Option Str
  | '\n' :: '`' :: '`' :: '`' :: rest =>
    match rest.dropWhile wordDash with
    | '\n' :: rs => some rs
    | _ => none
  | _ => none

/-- Third substitution, fuelled scanner: replace every mid-text opening fence
by a single newline, resuming after each match (so the newline that closed
one match is not available to open the next). -/
def replaceMidFencesF : Nat → Str → Str
  | 0, s => s
  | _ + 1, [] => []
  | fuel + 1, c :: cs =>
    match matchMidFence (c :: cs) with
    | some rs => '\n' :: replaceMidFencesF fuel rs
    | none => c :: replaceMidFencesF fuel cs

/-- `text.replace(<mid-text opening fences>, "\n")`. -/
def replaceMidFences (s : Str) : Str := replaceMidFencesF s.length s

/-- Fourth substitution: remove a closing fence `"\n"`<fence> at the very end
of the text (pattern anchored with `$`). -/
def dropClosingFence (s : Str) : Str :=
  match s.reverse with
  | '`' :: '`' :: '`' :: '\n' :: r => r.reverse
  | _ => s

/-- Does the pattern <fence>`[\w-]*$` match here, i.e. is the whole remainder
a fence followed only by word characters? -/
def fenceToEnd : Str → Bool
  | '`' :: '`' :: '`' :: rest => rest.all wordDash
  | _ => false

/-- Fifth substitution: remove a trailing partial fence, keeping everything
before the leftmost position where <fence>`[\w-]*$` matches. -/
def dropTrailingPartialFence : Str → Str
  | [] => []
  | c :: cs =>
    if fenceToEnd (c :: cs) then [] else c :: dropTrailingPartialFence cs

/-- `AutocompleteProvider.cleanMarkdownCodeBlocks` (also duplicated verbatim
in `CompletionGenerator.cleanMarkdownCodeBlocks`): the five substitutions
followed by `trim`. -/
def cleanMarkdownCodeBlocks (text : Str) : Str :=
  trimJS
    (dropTrailingPartialFence
      (dropClosingFence
        (replaceMidFences
          (dropLeadingFence
            (replaceFencedBlocks text)))))

/-- The `splitCompletion` helper of `AutocompleteProvider.processCompletionStream`
(lines 531-543): clean the accumulated text, split it on newlines, and divide
it into the first line and the rejoined remaining lines. -/
def splitCompletion (text : Str) : Str × Str :=
  let cleanedText := cleanMarkdownCodeBlocks text
  let lines := splitLines cleanedText
  if lines.length ≤ 1 then (cleanedText, [])
  else (lines.headD [], joinLines lines.tail)

/-- The recomposition formula of the split invariant in the specification:
the first line, followed by a newline and the remaining lines when the
remaining lines are non-empty. -/
def rejoinPreview (firstLine remainingLines : Str) : Str :=
  firstLine ++ (if remainingLines = [] then [] else '\n' :: remainingLines)

/-- Decidable form of "no leading and no trailing whitespace". -/
def noEdgeWhitespace (s : Str) : Bool :=
  (match s.head? with | some c => !jsWhitespace c | none => true) &&
  (match s.getLast? with | some c => !jsWhitespace c | none => true)

/-! ### AutocompleteDebouncer (utils/AutocompleteDebouncer.ts)

The debouncer is a single-threaded discrete-event system.  Its state holds
the most recent request id (`currentRequestId`) and the single pending
timeout (`debounceTimeout`), modelled as the id of the request that armed it
together with its absolute fire time.  Each call to
`delayAndShouldDebounce` assigns a fresh id (fresh uuids are modelled by the
call index), cancels any pending timeout — whose promise therefore never
resolves — and arms a new timeout.  A timeout that fires resolves its
promise with `shouldDebounce = (currentRequestId ≠ its id)`. -/
structure DebouncerState where
  currentRequestId : Option Nat
  debounceTimeout : Option (Nat × Nat)
deriving DecidableEq, Repr

/-- A resolution event: which call resolved, the boolean it resolved with
(`true` = skip / debounce, `false` = proceed), and the time it resolved. -/
abbrev DebResolution := Nat × Bool × Nat

/-- The timeout callback (AutocompleteDebouncer.ts lines 26-36). -/
def debFire (st : DebouncerState) (rid ft : Nat) : DebouncerState × DebResolution :=
  if st.currentRequestId = some rid then
    ({ currentRequestId := none, debounceTimeout := none }, (rid, false, ft))
  else
    ({ st with debounceTimeout := none }, (rid, true, ft))

/-- One call to `delayAndShouldDebounce` (lines 16-37): fresh id `i` becomes
current, the pending timeout is cleared, and a new timeout is armed for
`t + debounceDelay`. -/
def debCall (debounceDelay : Nat) (i t : Nat) : DebouncerState :=
  { currentRequestId := some i, debounceTimeout := some (i, t + debounceDelay) }

/-- Process a list of call times (strictly ordered by the caller) starting
from state `st` with `i` the index of the next call.  Before handling a call
at time `t`, a pending timeout due at or before `t` fires.  After the last
call the remaining pending timeout fires.  Returns the list of promise
resolutions in order. -/
def debProcess (debounceDelay : Nat) : DebouncerState → Nat → List Nat → List DebResolution
  | st, _, [] =>
    match st.debounceTimeout with
    | some (rid, ft) => [(debFire st rid ft).2]
    | none => []
  | st, i, t :: rest =>
    match st.debounceTimeout with
    | some (rid, ft) =>
      if ft ≤ t then
        let fired := debFire st rid ft
        fired.2 :: debProcess debounceDelay (debCall debounceDelay i t) (i + 1) rest
      else
        debProcess debounceDelay (debCall debounceDelay i t) (i + 1) rest
    | none => debProcess debounceDelay (debCall debounceDelay i t) (i + 1) rest

/-- Run a full scenario of `delayAndShouldDebounce` calls at the given times
against a fresh `AutocompleteDebouncer`. -/
def runDebouncer (debounceDelay : Nat) (callTimes : List Nat) : List DebResolution :=
  debProcess debounceDelay ⟨none, none⟩ 0 callTimes

/-! ### CompletionState (CompletionState.ts) -/
structure CompletionState where
  currentPreview : Str
  firstLinePreview : Str
  remainingLinesPreview : Str
  hasAcceptedFirstLine : Bool
  isShowingPreview : Bool
  isLoading : Bool
  activeCompletionId : Option Str
deriving DecidableEq, Repr

/-- The initial field values of a fresh `CompletionState` (lines 4-12). -/
def CompletionState.initial : CompletionState :=
  { currentPreview := [], firstLinePreview := [], remainingLinesPreview := []
    hasAcceptedFirstLine := false, isShowingPreview := false, isLoading := false
    activeCompletionId := none }

/-- `reset` (lines 123-130): clears everything except the completion id. -/
def CompletionState.reset (st : CompletionState) : CompletionState :=
  { st with currentPreview := [], firstLinePreview := [], remainingLinesPreview := []
            hasAcceptedFirstLine := false, isShowingPreview := false, isLoading := false }

/-- `startCompletion` (lines 46-50). -/
def CompletionState.startCompletion (st : CompletionState) (completionId : Str) :
    CompletionState :=
  { st.reset with activeCompletionId := some completionId, isLoading := true }

/-- `setCompletionText` (lines 55-66): store the text and split it into the
first line and the rejoined remaining lines. -/
def CompletionState.setCompletionText (st : CompletionState) (text : Str) :
    CompletionState :=
  let lines := splitLines text
  if lines.length > 1 then
    { st with currentPreview := text, firstLinePreview := lines.headD []
              remainingLinesPreview := joinLines lines.tail }
  else
    { st with currentPreview := text, firstLinePreview := text
              remainingLinesPreview := [] }

/-- `updatePreview` (lines 71-74). -/
def CompletionState.updatePreview (st : CompletionState) (firstLine remainingLines : Str) :
    CompletionState :=
  { st with firstLinePreview := firstLine, remainingLinesPreview := remainingLines }

/-- `acceptFirstLine` (lines 79-81). -/
def CompletionState.acceptFirstLine (st : CompletionState) : CompletionState :=
  { st with hasAcceptedFirstLine := true }

/-- `showPreview` (lines 86-89): shows the preview and stops loading in the
same synchronous step. -/
def CompletionState.showPreview (st : CompletionState) : CompletionState :=
  { st with isShowingPreview := true, isLoading := false }

/-- `hidePreview` (lines 94-96). -/
def CompletionState.hidePreview (st : CompletionState) : CompletionState :=
  { st with isShowingPreview := false }

/-- `stopLoading` (lines 101-103). -/
def CompletionState.stopLoading (st : CompletionState) : CompletionState :=
  { st with isLoading := false }

/-- `isCompletionActive` (lines 108-110). -/
def CompletionState.isCompletionActive (st : CompletionState) (completionId : Str) : Bool :=
  st.activeCompletionId = some completionId

/-- `cancelCompletion` (lines 115-118): null the id, then reset. -/
def CompletionState.cancelCompletion (st : CompletionState) : CompletionState :=
  CompletionState.reset { st with activeCompletionId := none }

/-- `clear` (lines 135-139): reset but restore the saved completion id. -/
def CompletionState.clear (st : CompletionState) : CompletionState :=
  let completionId := st.activeCompletionId
  { st.reset with activeCompletionId := completionId }

/-- The public mutating operations of `CompletionState`, as an enumerable
alphabet of events. -/
inductive CompletionStateOp
  | startCompletion (completionId : Str)
  | setCompletionText (text : Str)
  | updatePreview (firstLine remainingLines : Str)
  | acceptFirstLine
  | showPreview
  | hidePreview
  | stopLoading
  | cancelCompletion
  | reset
  | clear

/-- Apply one public operation. -/
def CompletionState.applyOp (st : CompletionState) : CompletionStateOp → CompletionState
  | .startCompletion completionId => st.startCompletion completionId
  | .setCompletionText text => st.setCompletionText text
  | .updatePreview firstLine remainingLines => st.updatePreview firstLine remainingLines
  | .acceptFirstLine => st.acceptFirstLine
  | .showPreview => st.showPreview
  | .hidePreview => st.hidePreview
  | .stopLoading => st.stopLoading
  | .cancelCompletion => st.cancelCompletion
  | .reset => st.reset
  | .clear => st.clear

/-- The invariant of claim C10: the loading flag and the preview-visible flag
are never simultaneously set. -/
def CompletionState.LoadShowExclusive (st : CompletionState) : Prop :=
  st.isLoading = false ∨ st.isShowingPreview = false

/-! ### AutocompleteProvider preview state and the accept command
(AutocompleteProvider.ts lines 34-41, 233-278, 483-503) -/
structure ProviderPreviewState where
  currentAutocompletePreview : Str
  firstLinePreview : Str
  remainingLinesPreview : Str
  hasAcceptedFirstLine : Bool
  isShowingAutocompletePreview : Bool
  isLoadingCompletion : Bool
deriving DecidableEq, Repr

/-- `clearAutocompletePreview` (lines 483-489); the editor-decoration and
context-key side effects are external UI calls with no bearing on this
state. -/
def clearAutocompletePreview (st : ProviderPreviewState) : ProviderPreviewState :=
  { isShowingAutocompletePreview := false, isLoadingCompletion := false
    currentAutocompletePreview := [], firstLinePreview := []
    remainingLinesPreview := [], hasAcceptedFirstLine := false }

/-- The `kilo-code.acceptAutocompletePreview` command handler (lines 234-271).
The second component is the text inserted into the document at the cursor by
`editBuilder.insert`, `none` when nothing is inserted.  The deferred
`inlineSuggest.trigger` after the first acceptance re-enters the provider,
which then serves `remainingLinesPreview`; it does not modify this state. -/
def acceptAutocompletePreview (st : ProviderPreviewState) :
    ProviderPreviewState × Option Str :=
  if st.hasAcceptedFirstLine = false ∧ st.remainingLinesPreview ≠ [] then
    if st.firstLinePreview ≠ [] then
      ({ st with hasAcceptedFirstLine := true }, some st.firstLinePreview)
    else
      (st, none)
  else if st.hasAcceptedFirstLine = true ∧ st.remainingLinesPreview ≠ [] then
    (clearAutocompletePreview st, some st.remainingLinesPreview)
  else
    (clearAutocompletePreview st, none)

/-! ### The streaming world of AutocompleteProvider.processCompletionStream
(AutocompleteProvider.ts lines 508-636)

Each invocation of `processCompletionStream` is a stream-consumption loop
with the run-local variables `completion`, `isCancelled` and
`firstLineComplete`; `done` records that the loop has exited (after a break
the remaining stream chunks are never consumed).  The provider-level shared
state holds the active completion id, the preview fields and the single
shared throttle timeout.  The throttle timeout stores the per-chunk constants
`currentFirstLine`/`currentRemainingLines` captured by the `setTimeout`
closure, together with the id of the run that armed it (the closure also
reads that run's `firstLineComplete` and `completion` at fire time).
`pendingEditor` always equals the editor of the single open document in the
scenarios of interest, so its guard in the callback is modelled as true. -/
structure StreamRun where
  id : Nat
  completion : Str
  isCancelled : Bool
  firstLineComplete : Bool
  done : Bool
deriving DecidableEq, Repr

structure ThrottleData where
  runId : Nat
  capturedFirstLine : Str
  capturedRemainingLines : Str
deriving DecidableEq, Repr

structure ProviderWorld where
  activeCompletionId : Option Nat
  firstLinePreview : Str
  remainingLinesPreview : Str
  isShowingAutocompletePreview : Bool
  hasAcceptedFirstLine : Bool
  throttle : Option ThrottleData
  runs : List StreamRun
deriving DecidableEq, Repr

def ProviderWorld.initial : ProviderWorld :=
  { activeCompletionId := none, firstLinePreview := [], remainingLinesPreview := []
    isShowingAutocompletePreview := false, hasAcceptedFirstLine := false
    throttle := none, runs := [] }

def findRun (w : ProviderWorld) (id : Nat) : Option StreamRun :=
  w.runs.find? (fun r => r.id == id)

def updateRun (w : ProviderWorld) (r : StreamRun) : ProviderWorld :=
  { w with runs := w.runs.map (fun q => if q.id == r.id then r else q) }

/-- `generateCompletionText` starting a new request (lines 388-393) and
entering `processCompletionStream`: a fresh id becomes the active one, the
acceptance flag is reset and a new run begins.  The previous run's id no
longer matches, so it is superseded. -/
def stepStart (w : ProviderWorld) (id : Nat) : ProviderWorld :=
  { w with activeCompletionId := some id, hasAcceptedFirstLine := false
           runs := w.runs ++ [{ id := id, completion := [], isCancelled := false
                                firstLineComplete := false, done := false }] }

/-- One received text chunk of run `id` (loop body, lines 562-620).  When the
run's id is no longer the active one, `checkCancellation` breaks out of the
loop and the post-loop final split (lines 628-630) runs; otherwise the chunk
is appended, any armed throttle timeout is cleared, and either the first-line
preview is published (first newline) or a new throttle timeout is armed with
the chunk's split captured in its closure. -/
def stepChunk (w : ProviderWorld) (id : Nat) (text : Str) : ProviderWorld :=
  match findRun w id with
  | none => w
  | some r =>
    if r.done then w
    else if w.activeCompletionId ≠ some id then
      let rdone := { r with isCancelled := true, done := true }
      { updateRun w rdone with
          firstLinePreview := (splitCompletion r.completion).1
          remainingLinesPreview := (splitCompletion r.completion).2 }
    else
      let completion := r.completion ++ text
      let currentFirstLine := (splitCompletion completion).1
      let currentRemainingLines := (splitCompletion completion).2
      let w1 := { w with throttle := none }
      if r.firstLineComplete = false ∧ completion.contains '\n' then
        { updateRun w1 { r with completion := completion, firstLineComplete := true } with
            firstLinePreview := currentFirstLine
            remainingLinesPreview := currentRemainingLines
            isShowingAutocompletePreview := true }
      else
        { updateRun w1 { r with completion := completion } with
            throttle := some { runId := id
                               capturedFirstLine := currentFirstLine
                               capturedRemainingLines := currentRemainingLines } }

/-- Normal end of run `id`'s stream: the loop exits and the post-loop final
split (lines 628-630) publishes the split of the accumulator. -/
def stepStreamEnd (w : ProviderWorld) (id : Nat) : ProviderWorld :=
  match findRun w id with
  | none => w
  | some r =>
    if r.done then w
    else
      { updateRun w { r with done := true } with
          firstLinePreview := (splitCompletion r.completion).1
          remainingLinesPreview := (splitCompletion r.completion).2 }

/-- The armed throttle timeout fires (callback body, lines 595-617).  The
callback checks `pendingEditor` (modelled as matching), then writes the
previews from its captured values when the arming run has completed its first
line — skipping the first-line write after acceptance — and otherwise writes
the whole cleaned accumulator as the first line.  It contains no check of
`activeCompletionId`. -/
def stepFireThrottle (w : ProviderWorld) : ProviderWorld :=
  match w.throttle with
  | none => w
  | some td =>
    match findRun w td.runId with
    | none => { w with throttle := none }
    | some r =>
      if r.firstLineComplete then
        if w.hasAcceptedFirstLine = false then
          { w with firstLinePreview := td.capturedFirstLine
                   remainingLinesPreview := td.capturedRemainingLines
                   throttle := none }
        else
          { w with remainingLinesPreview := td.capturedRemainingLines
                   throttle := none }
      else
        { w with firstLinePreview := cleanMarkdownCodeBlocks r.completion
                 remainingLinesPreview := []
                 throttle := none }

inductive ProviderEvent
  | start (id : Nat)
  | chunk (id : Nat) (text : Str)
  | streamEnd (id : Nat)
  | fireThrottle

def stepEvent (w : ProviderWorld) : ProviderEvent → ProviderWorld
  | .start id => stepStart w id
  | .chunk id text => stepChunk w id text
  | .streamEnd id => stepStreamEnd w id
  | .fireThrottle => stepFireThrottle w

def runEvents (evs : List ProviderEvent) : ProviderWorld :=
  evs.foldl stepEvent ProviderWorld.initial

/-! ### Template registry (templating/AutocompleteTemplate.ts, getTemplateForModel
lines 394-462) -/
/-- The eleven template constants of AutocompleteTemplate.ts, identified by
name; `getTemplateForModel` selects among them and its branch structure is
what the claims are about. -/
inductive TemplateId
  | stableCodeFim
  | qwenCoderFim
  | seedCoderFim
  | codestralMultifileFim
  | mercuryMultifileFim
  | codegemmaFim
  | starcoder2Fim
  | codeLlamaFim
  | deepseekFim
  | codegeexFim
  | holeFiller
deriving DecidableEq, Repr

/-- ASCII fragment of JavaScript `String.prototype.toLowerCase`, the only
fragment exercised by model identifiers. -/
def toLowerChar (c : Char) : Char :=
  if 65 ≤ c.toNat ∧ c.toNat ≤ 90 then Char.ofNat (c.toNat + 32) else c

def toLowerStr (s : Str) : Str := s.map toLowerChar

/-- JavaScript `String.prototype.includes`: `needle` occurs contiguously in
`hay`. -/
def isSubstrOf : Str → Str → Bool
  | n, [] => n.isPrefixOf []
  | n, c :: t => n.isPrefixOf (c :: t) || isSubstrOf n t

/-- `getTemplateForModel` (AutocompleteTemplate.ts lines 394-462): lower-case
the identifier once, then run the fixed ordered substring rules; the final
return is the stable-code FIM template. -/
def getTemplateForModel (model : Str) : TemplateId :=
  let m := toLowerStr model
  if isSubstrOf (str "mercury") m then .mercuryMultifileFim
  else if isSubstrOf (str "qwen") m && isSubstrOf (str "coder") m then .qwenCoderFim
  else if isSubstrOf (str "seed") m && isSubstrOf (str "coder") m then .seedCoderFim
  else if isSubstrOf (str "starcoder") m || isSubstrOf (str "star-coder") m ||
          isSubstrOf (str "starchat") m || isSubstrOf (str "octocoder") m ||
          isSubstrOf (str "stable") m || isSubstrOf (str "codeqwen") m ||
          isSubstrOf (str "qwen") m then
    (if isSubstrOf (str "starcoder2") m then .starcoder2Fim else .stableCodeFim)
  else if isSubstrOf (str "codestral") m || isSubstrOf (str "gemini") m then
    .codestralMultifileFim
  else if isSubstrOf (str "codegemma") m then .codegemmaFim
  else if isSubstrOf (str "codellama") m then .codeLlamaFim
  else if isSubstrOf (str "deepseek") m then .deepseekFim
  else if isSubstrOf (str "codegeex") m then .codegeexFim
  else if isSubstrOf (str "gpt") m || isSubstrOf (str "davinci-002") m ||
          isSubstrOf (str "claude") m || isSubstrOf (str "granite3") m ||
          isSubstrOf (str "granite-3") m then .holeFiller
  else .stableCodeFim

/-- The identifier is matched by none of the substring rules of
`getTemplateForModel`: every branch guard is false. -/
def matchesNoTemplateRule (model : Str) : Bool :=
  let m := toLowerStr model
  !(isSubstrOf (str "mercury") m) &&
  !(isSubstrOf (str "qwen") m && isSubstrOf (str "coder") m) &&
  !(isSubstrOf (str "seed") m && isSubstrOf (str "coder") m) &&
  !(isSubstrOf (str "starcoder") m || isSubstrOf (str "star-coder") m ||
    isSubstrOf (str "starchat") m || isSubstrOf (str "octocoder") m ||
    isSubstrOf (str "stable") m || isSubstrOf (str "codeqwen") m ||
    isSubstrOf (str "qwen") m) &&
  !(isSubstrOf (str "codestral") m || isSubstrOf (str "gemini") m) &&
  !(isSubstrOf (str "codegemma") m) &&
  !(isSubstrOf (str "codellama") m) &&
  !(isSubstrOf (str "deepseek") m) &&
  !(isSubstrOf (str "codegeex") m) &&
  !(isSubstrOf (str "gpt") m || isSubstrOf (str "davinci-002") m ||
    isSubstrOf (str "claude") m || isSubstrOf (str "granite3") m ||
    isSubstrOf (str "granite-3") m)

/-! ### Snippet assembly (context/snippetProvider.ts, generateAutocompleteSnippets
lines 20-52) -/
inductive AutocompleteSnippetType
  | code
  | diff
  | context
deriving DecidableEq, Repr

structure AutocompleteSnippet where
  type : AutocompleteSnippetType
  filepath : Str
  content : Str
deriving DecidableEq, Repr

structure CodeContextDefinition where
  filepath : Str
  content : Str
deriving DecidableEq, Repr

/-- The `CodeContext` produced by the context gatherer (shape per
ContextGatherer's consumers and the provider tests). -/
structure CodeContext where
  currentLine : Str
  precedingLines : List Str
  followingLines : List Str
  imports : List Str
  definitions : List CodeContextDefinition
deriving DecidableEq, Repr

/-- JavaScript `Array.prototype.map` with the element index as second
callback argument, starting from `i`. -/
def mapWithIdx {α β : Type} (f : Nat → α → β) : Nat → List α → List β
  | _, [] => []
  | i, a :: t => f i a :: mapWithIdx f (i + 1) t

/-- Decimal rendering of a natural number, for the `#<index>` suffix of the
synthetic import locator. -/
def natToStr (n : Nat) : Str := str (toString n)

/-- Modelled from the spec: `getUriPathBasename` lives in templating/uri.ts,
which is absent from the sources; per the specification the locator uses the
basename of the current filepath, i.e. its last `/`-separated segment. -/
def getUriPathBasename (path : Str) : Str :=
  (splitOnChar '/' path).getLastD []

/-- `generateAutocompleteSnippets` (snippetProvider.ts lines 20-52): one
Context snippet per import line carrying the synthetic locator, followed by
one Code snippet per definition carrying its real filepath. -/
def generateAutocompleteSnippets (codeContext : CodeContext)
    (includeImports includeDefinitions : Bool) (currentFilepath : Str) :
    List AutocompleteSnippet :=
  (if includeImports then
    mapWithIdx
      (fun index importStatement =>
        { type := .context
          content := importStatement
          filepath := str "context://imports/" ++ getUriPathBasename currentFilepath ++
            '#' :: natToStr index })
      0 codeContext.imports
  else []) ++
  (if includeDefinitions then
    codeContext.definitions.map
      (fun d => { type := .code, filepath := d.filepath, content := d.content })
  else [])

/-! ### Prompt rendering (PromptRenderer.ts renderPrompt, lines 61-195, and
templating/AutocompleteTemplate.ts compilePrefixSuffix functions)

The path helpers `getLastNUriRelativePathParts` and
`getShortestUniqueRelativeUriPaths` of templating/uri.ts are absent from the
sources; they only shape path strings spliced into the PREFIX side, so they
are taken as parameters, universally quantified in every theorem. -/
structure RelPathEntry where
  uri : Str
  uniquePath : Str

/-- The `getFileName` helper of the multifile compilePrefixSuffix functions. -/
def relPathFileName (e : RelPathEntry) : Str :=
  if (str "file://").isPrefixOf e.uri then e.uniquePath else e.uri

/-- `Array.prototype.join` with a string separator. -/
def joinStr (sep : Str) : List Str → Str
  | [] => []
  | [x] => x
  | x :: y :: t => x ++ sep ++ joinStr sep (y :: t)

/-- `codestralMultifileFimTemplate.compilePrefixSuffix`
(AutocompleteTemplate.ts lines 87-128).  `getLastN` models
`getLastNUriRelativePathParts workspaceUris · 2` and `relPaths` models
`getShortestUniqueRelativeUriPaths · workspaceUris`. -/
def codestralCompilePrefixSuffix (getLastN : Str → Str)
    (relPaths : List Str → List RelPathEntry)
    (pfx sfx filepath : Str) (snippets : List AutocompleteSnippet) : Str × Str :=
  if snippets = [] then
    if trimJS sfx = [] ∧ trimJS pfx = [] then
      (str "+++++ " ++ getLastN filepath ++ '\n' :: pfx, sfx)
    else (pfx, sfx)
  else
    let rel := relPaths
      ((snippets.map (fun s => if s.filepath ≠ [] then s.filepath
                               else str "file:///Untitled.txt")) ++ [filepath])
    let otherFiles := joinStr (str "\n\n")
      (mapWithIdx
        (fun i s =>
          if s.type = .diff then s.content
          else str "+++++ " ++ relPathFileName (rel.getD i ⟨[], []⟩) ++ str " \n" ++ s.content)
        0 snippets)
    (otherFiles ++ str "\n\n+++++ " ++
      relPathFileName (rel.getD (rel.length - 1) ⟨[], []⟩) ++ '\n' :: pfx, sfx)

/-- `mercuryMultifileFimTemplate.compilePrefixSuffix`
(AutocompleteTemplate.ts lines 139-190). -/
def mercuryCompilePrefixSuffix (getLastN : Str → Str)
    (relPaths : List Str → List RelPathEntry)
    (pfx sfx filepath : Str) (snippets : List AutocompleteSnippet) : Str × Str :=
  if snippets = [] then
    if trimJS sfx = [] ∧ trimJS pfx = [] then
      (str "<|file_sep|>" ++ getLastN filepath ++ str "\n<|fim_prefix|>" ++ pfx, sfx)
    else (str "<|fim_prefix|>" ++ pfx, sfx)
  else
    let rel := relPaths
      ((snippets.map (fun s => if s.filepath ≠ [] then s.filepath
                               else str "file:///Untitled.txt")) ++ [filepath])
    let otherFiles := joinStr (str "\n\n")
      (mapWithIdx
        (fun i s =>
          if s.type = .diff then s.content
          else str "<|file_sep|>" ++ relPathFileName (rel.getD i ⟨[], []⟩) ++ str " \n" ++ s.content)
        0 snippets)
    (otherFiles ++ (if otherFiles ≠ [] then str "\n\n" else []) ++ str "<|file_sep|>" ++
      relPathFileName (rel.getD (rel.length - 1) ⟨[], []⟩) ++ str "\n<|fim_prefix|>" ++ pfx,
     sfx)

/-- Prefix construction of `PromptRenderer.renderPrompt` (lines 77-81):
joined preceding lines (with a trailing newline) followed by the current
line. -/
def buildPrefix (context : CodeContext) : Str :=
  (if context.precedingLines.length > 0 then
    joinLines context.precedingLines ++ ['\n']
  else []) ++ context.currentLine

/-- Suffix construction of `PromptRenderer.renderPrompt` (lines 84-91):
newline-prefixed joined following lines, then the empty-suffix default to a
single newline. -/
def buildSuffix (context : CodeContext) : Str :=
  let sfx := if context.followingLines.length > 0 then
    '\n' :: joinLines context.followingLines
  else []
  if sfx = [] then str "\n" else sfx

/-- Snippet formatting of the no-`compilePrefixSuffix` fallback (lines
143-153). -/
def fallbackFormattedSnippets (snippets : List AutocompleteSnippet) : Str :=
  joinStr (str "\n\n")
    (snippets.map (fun s =>
      if s.type = .code then
        str "// From " ++ getUriPathBasename s.filepath ++ '\n' :: s.content
      else s.content))

/-- The prefix and suffix finally handed to the template (lines 129-178) and
returned in the result record (lines 184-194): the compile step of the
selected template rewrites them when present; otherwise the formatted
snippets are prepended to the prefix. -/
def renderPromptPrefixSuffix (templateId : TemplateId) (getLastN : Str → Str)
    (relPaths : List Str → List RelPathEntry) (context : CodeContext)
    (filepath : Str) (snippets : List AutocompleteSnippet) : Str × Str :=
  let pfx := buildPrefix context
  let sfx := buildSuffix context
  match templateId with
  | .codestralMultifileFim =>
    codestralCompilePrefixSuffix getLastN relPaths pfx sfx filepath snippets
  | .mercuryMultifileFim =>
    mercuryCompilePrefixSuffix getLastN relPaths pfx sfx filepath snippets
  | _ =>
    let formatted := fallbackFormattedSnippets snippets
    (if formatted ≠ [] then formatted ++ str "\n\n" ++ pfx else pfx, sfx)

/-! ### The façade (AutocompleteProvider.provideInlineCompletionItems,
lines 112-164)

The stages of a completion request — context gathering, snippet assembly,
prompt rendering and stream consumption — run sequentially inside the
`try` block; any of them may throw.  Stage outcomes are `Except` values and
the `catch` clause (lines 160-163) resolves every exception to `null`. -/
inductive CompletionError
  | contextGather
  | snippetAssembly
  | promptRender
  | streamConsumption
deriving DecidableEq, Repr

/-- `generateCompletionText` as the sequential composition of its fallible
stages; an exception in any stage aborts the rest.  The successful result is
the completion text, `none` standing for the `null` returned on cancellation
or failed validation. -/
def generateCompletionTextPipeline
    (gatherContext : Except CompletionError CodeContext)
    (assembleSnippets : CodeContext → Except CompletionError (List AutocompleteSnippet))
    (renderPrompt : CodeContext → List AutocompleteSnippet → Except CompletionError (Str × Str))
    (consumeStream : Str × Str → Except CompletionError (Option Str)) :
    Except CompletionError (Option Str) := do
  let codeContext ← gatherContext
  let snippets ← assembleSnippets codeContext
  let rendered ← renderPrompt codeContext snippets
  consumeStream rendered

/-- The `try` block of `provideInlineCompletionItems` (lines 123-159): serve
the pending remainder after a first-line acceptance, otherwise run the
pipeline, return `null` for a falsy completion, and split a fresh completion
into the item to display. -/
def provideInlineTryBlock (st : ProviderPreviewState)
    (pipeline : Except CompletionError (Option Str)) :
    Except CompletionError (Option Str) :=
  if st.hasAcceptedFirstLine = true ∧ st.remainingLinesPreview ≠ [] then
    .ok (some st.remainingLinesPreview)
  else do
    let completionText? ← pipeline
    match completionText? with
    | none => .ok none
    | some completionText =>
      if completionText = [] then .ok none
      else
        let lines := splitLines completionText
        if lines.length > 1 then .ok (some (lines.headD []))
        else .ok (some completionText)

/-- `provideInlineCompletionItems` (lines 112-164): the `try` block wrapped in
the `catch` that maps every exception to `null`.  The returned value is the
insert text of the single inline completion item, `none` for `null`. -/
def provideInlineCompletionItems (st : ProviderPreviewState)
    (pipeline : Except CompletionError (Option Str)) : Option Str :=
  match provideInlineTryBlock st pipeline with
  | .ok v => v
  | .error _ => none

/-- What a chunk arriving after supersession does: the guarded loop body
never runs, so the chunk's text is appended nowhere, no throttle write is
scheduled, and the run is marked cancelled with the loop exited; the only
preview write is the post-loop final split of the accumulator gathered
before supersession. -/
def SupersededChunkBehaviour (w : ProviderWorld) (id : Nat) (text : Str)
    (r : StreamRun) : Prop :=
  stepChunk w id text =
    { updateRun w { r with isCancelled := true, done := true } with
        firstLinePreview := (splitCompletion r.completion).1
        remainingLinesPreview := (splitCompletion r.completion).2 } ∧
  (stepChunk w id text).throttle = w.throttle ∧
  (stepChunk w id text).isShowingAutocompletePreview = w.isShowingAutocompletePreview ∧
  findRun (stepChunk w id text) id =
    some { r with isCancelled := true, done := true }

/-- The world in which run 0 has accumulated "foo" and been superseded by
request 1. -/
def supersededWorld : ProviderWorld :=
  runEvents [.start 0, .chunk 0 (str "foo"), .start 1]

/-- The superseded run 0 as it stands in `supersededWorld`. -/
def supersededRun : StreamRun :=
  { id := 0, completion := str "foo", isCancelled := false
    firstLineComplete := false, done := false }

/-- The two-stage acceptance behaviour claimed for a multi-line preview:
the first accept inserts exactly the first line, sets the acceptance flag
and leaves the remaining lines available; the second accept inserts exactly
the remaining lines and resets all preview state. -/
def TwoStageAcceptance (st : ProviderPreviewState) : Prop :=
  (acceptAutocompletePreview st).2 = some st.firstLinePreview ∧
  (acceptAutocompletePreview st).1.hasAcceptedFirstLine = true ∧
  (acceptAutocompletePreview st).1.firstLinePreview = st.firstLinePreview ∧
  (acceptAutocompletePreview st).1.remainingLinesPreview = st.remainingLinesPreview ∧
  (acceptAutocompletePreview (acceptAutocompletePreview st).1).2 =
    some st.remainingLinesPreview ∧
  (acceptAutocompletePreview (acceptAutocompletePreview st).1).1 =
    clearAutocompletePreview st

/-- The example preview of the specification, as produced by splitting the
completion text "const a = 1;\nconst b = 2;". -/
def twoStageRawEx : Str := str "const a = 1;\nconst b = 2;"

def twoStageStateEx : ProviderPreviewState :=
  { currentAutocompletePreview := twoStageRawEx
    firstLinePreview := str "const a = 1;"
    remainingLinesPreview := str "const b = 2;"
    hasAcceptedFirstLine := false
    isShowingAutocompletePreview := true
    isLoadingCompletion := false }

/-- The example context for the C9 witness: two import lines and one
definition. -/
def snippetContextEx : CodeContext :=
  { currentLine := str "const a = "
    precedingLines := [], followingLines := []
    imports := [str "import x from \x22./x\x22", str "import y from \x22./y\x22"]
    definitions := [{ filepath := str "/src/util.ts", content := str "function f() \x7b\x7d" }] }

theorem splitOnChar_ne_nil (sep : Char) (s : Str) : splitOnChar sep s ≠ [] := by
  cases s with
  | nil => simp [splitOnChar]
  | cons c cs =>
    simp only [splitOnChar]
    split
    · simp
    · split <;> simp

theorem joinWith_splitOnChar (sep : Char) (s : Str) :
    joinWith sep (splitOnChar sep s) = s := by
  induction s with
  | nil => simp [splitOnChar, joinWith]
  | cons c cs ih =>
    simp only [splitOnChar]
    by_cases hc : c = sep
    · simp only [if_pos hc]
      rcases h : splitOnChar sep cs with _ | ⟨l, ls⟩
      · exact absurd h (splitOnChar_ne_nil sep cs)
      · rw [h] at ih
        rw [hc]
        simp [joinWith, ih]
    · simp only [if_neg hc]
      rcases h : splitOnChar sep cs with _ | ⟨l, ls⟩
      · exact absurd h (splitOnChar_ne_nil sep cs)
      · rw [h] at ih
        cases ls with
        | nil => simpa [joinWith] using ih
        | cons l2 ls2 => simpa [joinWith] using ih

theorem joinLines_splitLines (s : Str) : joinLines (splitLines s) = s :=
  joinWith_splitOnChar '\n' s

/-- The head of a non-empty `dropWhile` result falsifies the predicate. -/
theorem dropWhile_head_false {p : Char → Bool} :
    ∀ {l : List Char} {c : Char} {cs : List Char},
      l.dropWhile p = c :: cs → p c = false := by
  intro l
  induction l with
  | nil => intro c cs h; simp [List.dropWhile] at h
  | cons a t ih =>
    intro c cs h
    by_cases ha : p a
    · rw [List.dropWhile_cons_of_pos ha] at h
      exact ih h
    · rw [List.dropWhile_cons_of_neg ha] at h
      cases h
      exact Bool.eq_false_iff.mpr ha

/-- `dropWhile` keeps the last element of the list when its result is
non-empty. -/
theorem dropWhile_getLast? {p : Char → Bool} :
    ∀ (l : List Char), l.dropWhile p ≠ [] →
      (l.dropWhile p).getLast? = l.getLast? := by
  intro l
  induction l with
  | nil => intro h; simp [List.dropWhile] at h
  | cons a t ih =>
    intro h
    by_cases ha : p a
    · rw [List.dropWhile_cons_of_pos ha] at h ⊢
      rw [ih h]
      rcases ht : t with _ | ⟨b, tb⟩
      · rw [ht] at h; simp [List.dropWhile] at h
      · simp
    · rw [List.dropWhile_cons_of_neg ha]

theorem trimJS_head_not_ws {s : Str} {c : Char} {cs : Str}
    (h : trimJS s = c :: cs) : jsWhitespace c = false :=
  dropWhile_head_false h

theorem trimJS_getLast_not_ws {s : Str} {c : Char}
    (h : (trimJS s).getLast? = some c) : jsWhitespace c = false := by
  have hne : trimJS s ≠ [] := by
    intro hnil; rw [hnil] at h; simp at h
  have h1 : (trimJS s).getLast? = (trimRight s).getLast? :=
    dropWhile_getLast? (trimRight s) hne
  have h2 : (trimRight s).getLast? = (s.reverse.dropWhile jsWhitespace).head? := by
    simp [trimRight, List.getLast?_eq_head?_reverse]
  rw [h1, h2] at h
  rcases hd : s.reverse.dropWhile jsWhitespace with _ | ⟨x, xs⟩
  · rw [hd] at h; simp at h
  · rw [hd] at h
    simp only [List.head?] at h
    cases h
    exact dropWhile_head_false hd

/-- A list whose head does not satisfy `p` is unchanged by `dropWhile`. -/
theorem dropWhile_eq_self_of_head (p : Char → Bool) (s : Str)
    (h : ∀ c cs, s = c :: cs → p c = false) : s.dropWhile p = s := by
  cases s with
  | nil => simp [List.dropWhile]
  | cons c cs =>
    have := h c cs rfl
    rw [List.dropWhile_cons_of_neg (by simp [this])]

theorem trimJS_eq_self (s : Str)
    (hhead : ∀ c cs, s = c :: cs → jsWhitespace c = false)
    (hlast : ∀ c, s.getLast? = some c → jsWhitespace c = false) :
    trimJS s = s := by
  have hrev : s.reverse.dropWhile jsWhitespace = s.reverse := by
    apply dropWhile_eq_self_of_head
    intro c cs h
    apply hlast
    rw [List.getLast?_eq_head?_reverse, h]
    rfl
  have h1 : trimRight s = s := by
    simp [trimRight, hrev]
  rw [trimJS, h1]
  exact dropWhile_eq_self_of_head _ _ hhead

theorem hasFence_cons_false {c : Char} {cs : Str} (h : hasFence (c :: cs) = false) :
    startsWithFence (c :: cs) = false ∧ hasFence cs = false := by
  simpa [hasFence] using h

theorem hasFence_append_right (a b : Str) (h : hasFence b = true) :
    hasFence (a ++ b) = true := by
  induction a with
  | nil => simpa using h
  | cons c t ih => simp [hasFence, ih]

theorem matchFenceOpen_eq_none {s : Str} (h : startsWithFence s = false) :
    matchFenceOpen s = none := by
  unfold matchFenceOpen
  split
  · simp [startsWithFence] at h
  · rfl

theorem matchMidFence_eq_none {c : Char} {cs : Str} (h : startsWithFence cs = false) :
    matchMidFence (c :: cs) = none := by
  unfold matchMidFence
  split
  · rename_i heq
    cases heq
    simp [startsWithFence] at h
  · rfl

theorem fenceToEnd_startsWith {s : Str} (h : fenceToEnd s = true) :
    startsWithFence s = true := by
  unfold fenceToEnd at h
  split at h
  · rename_i heq
    simp [startsWithFence]
  · exact absurd h (by simp)

theorem replaceFencedBlocksF_no_fence :
    ∀ (fuel : Nat) (s : Str), hasFence s = false → replaceFencedBlocksF fuel s = s := by
  intro fuel
  induction fuel with
  | zero => intro s _; rfl
  | succ n ih =>
    intro s h
    cases s with
    | nil => rfl
    | cons c cs =>
      obtain ⟨h1, h2⟩ := hasFence_cons_false h
      simp only [replaceFencedBlocksF, matchFenceOpen_eq_none h1]
      rw [ih cs h2]

theorem replaceFencedBlocks_no_fence {s : Str} (h : hasFence s = false) :
    replaceFencedBlocks s = s :=
  replaceFencedBlocksF_no_fence s.length s h

theorem dropLeadingFence_no_fence {s : Str} (h : hasFence s = false) :
    dropLeadingFence s = s := by
  have h1 : startsWithFence s = false := by
    cases s with
    | nil => rfl
    | cons c cs => exact (hasFence_cons_false h).1
  simp [dropLeadingFence, matchFenceOpen_eq_none h1]

theorem replaceMidFencesF_no_fence :
    ∀ (fuel : Nat) (s : Str), hasFence s = false → replaceMidFencesF fuel s = s := by
  intro fuel
  induction fuel with
  | zero => intro s _; rfl
  | succ n ih =>
    intro s h
    cases s with
    | nil => rfl
    | cons c cs =>
      obtain ⟨h1, h2⟩ := hasFence_cons_false h
      have h3 : startsWithFence cs = false := by
        cases cs with
        | nil => rfl
        | cons d ds => exact (hasFence_cons_false h2).1
      simp only [replaceMidFencesF, matchMidFence_eq_none h3]
      rw [ih cs h2]

theorem replaceMidFences_no_fence {s : Str} (h : hasFence s = false) :
    replaceMidFences s = s :=
  replaceMidFencesF_no_fence s.length s h

theorem dropClosingFence_no_fence {s : Str} (h : hasFence s = false) :
    dropClosingFence s = s := by
  unfold dropClosingFence
  split
  · rename_i r heq
    have hs : s = r.reverse ++ ['\n', '`', '`', '`'] := by
      rw [← List.reverse_reverse s, heq]
      simp
    rw [hs] at h
    rw [hasFence_append_right r.reverse ['\n', '`', '`', '`'] (by decide)] at h
    cases h
  · rfl

theorem dropTrailingPartialFence_no_fence :
    ∀ {s : Str}, hasFence s = false → dropTrailingPartialFence s = s := by
  intro s
  induction s with
  | nil => intro _; rfl
  | cons c cs ih =>
    intro h
    obtain ⟨h1, h2⟩ := hasFence_cons_false h
    have hf : fenceToEnd (c :: cs) = false := by
      cases hft : fenceToEnd (c :: cs) with
      | false => rfl
      | true => rw [fenceToEnd_startsWith hft] at h1; cases h1
    simp only [dropTrailingPartialFence, hf]
    rw [ih h2]
    simp

theorem noEdgeWhitespace_head {s : Str} (h : noEdgeWhitespace s = true) :
    ∀ c cs, s = c :: cs → jsWhitespace c = false := by
  intro c cs hs
  subst hs
  simp only [noEdgeWhitespace, Bool.and_eq_true] at h
  simpa using h.1

theorem noEdgeWhitespace_last {s : Str} (h : noEdgeWhitespace s = true) :
    ∀ c, s.getLast? = some c → jsWhitespace c = false := by
  intro c hc
  simp only [noEdgeWhitespace, Bool.and_eq_true] at h
  have := h.2
  rw [hc] at this
  simpa using this

/-- A fence-free text with no edge whitespace is a fixed point of the whole
cleaning pipeline. -/
theorem cleanMarkdownCodeBlocks_eq_self {s : Str}
    (hf : hasFence s = false) (hw : noEdgeWhitespace s = true) :
    cleanMarkdownCodeBlocks s = s := by
  unfold cleanMarkdownCodeBlocks
  rw [replaceFencedBlocks_no_fence hf, dropLeadingFence_no_fence hf,
    replaceMidFences_no_fence hf, dropClosingFence_no_fence hf,
    dropTrailingPartialFence_no_fence hf]
  exact trimJS_eq_self s (noEdgeWhitespace_head hw) (noEdgeWhitespace_last hw)

theorem clean_head_not_ws {s : Str} {c : Char} {cs : Str}
    (h : cleanMarkdownCodeBlocks s = c :: cs) : jsWhitespace c = false := by
  unfold cleanMarkdownCodeBlocks at h
  exact trimJS_head_not_ws h

theorem clean_getLast_not_ws {s : Str} {c : Char}
    (h : (cleanMarkdownCodeBlocks s).getLast? = some c) : jsWhitespace c = false := by
  unfold cleanMarkdownCodeBlocks at h
  exact trimJS_getLast_not_ws h

theorem joinLines_two_eq (t : Str) {l l2 : Str} {ls : List Str}
    (h : splitLines t = l :: l2 :: ls) : l ++ '\n' :: joinLines (l2 :: ls) = t := by
  have := joinLines_splitLines t
  rw [h] at this
  exact this

theorem joinLines_cons_eq_nil {l2 : Str} {ls : List Str}
    (h : joinLines (l2 :: ls) = []) : l2 = [] ∧ ls = [] := by
  cases ls with
  | nil => exact ⟨h, rfl⟩
  | cons y t =>
    exfalso
    have : l2 ++ '\n' :: joinWith '\n' (y :: t) = [] := h
    simp at this

/-- Core split invariant: the two halves produced by `splitCompletion` always
rejoin to the cleaned input text. -/
theorem rejoin_splitCompletion (s : Str) :
    rejoinPreview (splitCompletion s).1 (splitCompletion s).2 =
      cleanMarkdownCodeBlocks s := by
  unfold splitCompletion
  rcases h : splitLines (cleanMarkdownCodeBlocks s) with _ | ⟨l, ls⟩
  · exact absurd h (splitOnChar_ne_nil _ _)
  · cases ls with
    | nil =>
      simp only [h, List.length_cons, List.length_nil]
      rw [if_pos (by omega)]
      simp [rejoinPreview]
    | cons l2 ls2 =>
      simp only [h, List.length_cons]
      rw [if_neg (by omega)]
      simp only [List.headD, List.tail]
      rcases hrem : joinLines (l2 :: ls2) with _ | ⟨r, rs⟩
      · exfalso
        obtain ⟨hl2, hls2⟩ := joinLines_cons_eq_nil hrem
        subst hl2; subst hls2
        have ht := joinLines_two_eq (cleanMarkdownCodeBlocks s) h
        simp only [joinLines, joinWith] at ht
        have hlast : (cleanMarkdownCodeBlocks s).getLast? = some '\n' := by
          rw [← ht]
          exact List.getLast?_concat _
        have := clean_getLast_not_ws hlast
        simp [jsWhitespace] at this
      · rw [← hrem]
        have hne : joinLines (l2 :: ls2) ≠ [] := by rw [hrem]; simp
        rw [rejoinPreview, if_neg hne]
        exact joinLines_two_eq (cleanMarkdownCodeBlocks s) h

/-- In a multi-line split the first line is never empty: the cleaned text is
trimmed, so it cannot begin with a newline. -/
theorem splitCompletion_first_ne_nil {s : Str}
    (h2 : (splitCompletion s).2 ≠ []) : (splitCompletion s).1 ≠ [] := by
  unfold splitCompletion at h2 ⊢
  rcases h : splitLines (cleanMarkdownCodeBlocks s) with _ | ⟨l, ls⟩
  · exact absurd h (splitOnChar_ne_nil _ _)
  · cases ls with
    | nil =>
      exfalso
      apply h2
      simp only [h, List.length_cons, List.length_nil]
      rw [if_pos (by omega)]
    | cons l2 ls2 =>
      simp only [h, List.length_cons]
      rw [if_neg (by omega)]
      simp only [List.headD]
      intro hl
      subst hl
      have ht := joinLines_two_eq (cleanMarkdownCodeBlocks s) h
      simp only [List.nil_append] at ht
      have := clean_head_not_ws ht.symm
      simp [jsWhitespace] at this

theorem debProcess_chain (d : Nat) :
    ∀ (rest : List Nat) (j t : Nat),
      List.Chain (fun a b => a ≤ b ∧ b < a + d) t rest →
      debProcess d (debCall d j t) (j + 1) rest =
        [(j + rest.length, false, rest.getLastD t + d)] := by
  intro rest
  induction rest with
  | nil =>
    intro j t _
    simp [debProcess, debCall, debFire]
  | cons t1 rest1 ih =>
    intro j t hchain
    rcases hchain with _ | ⟨⟨hle, hlt⟩, hchain1⟩
    simp only [debProcess, debCall]
    rw [if_neg (by omega)]
    have hrec := ih (j + 1) t1 hchain1
    simp only [debCall] at hrec
    rw [hrec, List.length_cons, List.getLastD_cons]
    exact congrArg (fun n => [(n, false, rest1.getLastD t1 + d)])
      (by omega : j + 1 + rest1.length = j + (rest1.length + 1))

/-- Whole-scenario consequence of `debProcess_chain`: with every call arriving
strictly within the delay of its predecessor, only the very last call ever
resolves. -/
theorem runDebouncer_chain (d t : Nat) (rest : List Nat)
    (h : List.Chain (fun a b => a ≤ b ∧ b < a + d) t rest) :
    runDebouncer d (t :: rest) = [(rest.length, false, rest.getLastD t + d)] := by
  have := debProcess_chain d rest 0 t h
  simp only [debCall, Nat.zero_add] at this
  simpa [runDebouncer, debProcess] using this

theorem toLowerChar_idem (c : Char) : toLowerChar (toLowerChar c) = toLowerChar c := by
  by_cases h : 65 ≤ c.toNat ∧ c.toNat ≤ 90
  · have hin : toLowerChar c = Char.ofNat (c.toNat + 32) := by
      rw [toLowerChar, if_pos h]
    rw [hin]
    obtain ⟨h1, h2⟩ := h
    set n := c.toNat with hn
    interval_cases n <;> decide
  · have hin : toLowerChar c = c := by
      rw [toLowerChar, if_neg h]
    rw [hin, toLowerChar, if_neg h]

theorem toLowerStr_idem (s : Str) : toLowerStr (toLowerStr s) = toLowerStr s := by
  simp only [toLowerStr, List.map_map]
  exact List.map_congr_left (fun c _ => toLowerChar_idem c)

theorem mapWithIdx_length {α β : Type} (f : Nat → α → β) :
    ∀ (l : List α) (k : Nat), (mapWithIdx f k l).length = l.length := by
  intro l
  induction l with
  | nil => intro k; rfl
  | cons a t ih => intro k; simp [mapWithIdx, ih]

theorem mapWithIdx_getElem? {α β : Type} (f : Nat → α → β) :
    ∀ (l : List α) (k i : Nat),
      (mapWithIdx f k l)[i]? = Option.map (f (k + i)) l[i]? := by
  intro l
  induction l with
  | nil => intro k i; simp [mapWithIdx]
  | cons a t ih =>
    intro k i
    cases i with
    | zero => simp [mapWithIdx]
    | succ n =>
      simp only [mapWithIdx, List.getElem?_cons_succ]
      rw [ih (k + 1) n]
      have harith : k + 1 + n = k + (n + 1) := by omega
      rw [harith]

/-- C1: the claim is false on the code.  With the specification's own example
— three calls at t = 0, 10, 20 ms and a 50 ms delay — the run produces
exactly one resolution, the last call's, resolving to proceed (false) at
t = 70; the two earlier calls never resolve at all, because each newer call
executes `clearTimeout` on the pending timeout (lines 20-22), so the earlier
promise is abandoned instead of resolving to skip (true). -/
theorem C1_debounce_counterexample :
    runDebouncer 50 [0, 10, 20] = [(2, false, 70)] ∧
    ((runDebouncer 50 [0, 10, 20]).filter (fun p => p.1 == 0)).length = 0 ∧
    ((runDebouncer 50 [0, 10, 20]).filter (fun p => p.1 == 1)).length = 0 ∧
    (runDebouncer 50 [0, 10, 20]).length ≠ 3 := by
  decide

/-- C1 (amended): for every sequence of calls to
`AutocompleteDebouncer.delayAndShouldDebounce` in which each call arrives
within `delayMs` of its predecessor, exactly one promise ever resolves — the
last call's — and it resolves to proceed (false) only after the full delay
has elapsed since that last call with no newer call arriving; the earlier
calls never resolve, their pending timeouts having been cleared by the next
call. -/
theorem C1_debounce_amended (delayMs firstCall : Nat) (laterCalls : List Nat)
    (h : List.Chain (fun a b => a ≤ b ∧ b < a + delayMs) firstCall laterCalls) :
    runDebouncer delayMs (firstCall :: laterCalls) =
      [((firstCall :: laterCalls).length - 1, false,
        (firstCall :: laterCalls).getLastD 0 + delayMs)] := by
  rw [runDebouncer_chain delayMs firstCall laterCalls h]
  rw [List.getLastD_cons, List.length_cons]
  simp

/-- C1 witness: the amended theorem at the concrete scenario of the
specification. -/
theorem C1_debounce_witness :
    runDebouncer 50 [0, 10, 20] = [(2, false, 70)] := by
  have hchain : List.Chain (fun a b => a ≤ b ∧ b < a + 50) 0 [10, 20] :=
    List.Chain.cons ⟨by omega, by omega⟩ (List.Chain.cons ⟨by omega, by omega⟩ List.Chain.nil)
  have h := C1_debounce_amended 50 0 [10, 20] hchain
  simpa using h

/-- C2: the claim is false on the code.  Run A (id 0) receives the chunk
"foo" and arms a throttle timeout; request B (id 1) then becomes active.
When A's pending throttle timeout fires, its callback — which checks the
pending editor but not `activeCompletionId` — writes A's data "foo" into
`firstLinePreview`, mutating the visible preview state after supersession. -/
theorem C2_supersession_counterexample :
    (runEvents [.start 0, .chunk 0 (str "foo"), .start 1]).firstLinePreview = [] ∧
    (runEvents [.start 0, .chunk 0 (str "foo"), .start 1]).activeCompletionId = some 1 ∧
    (runEvents [.start 0, .chunk 0 (str "foo"), .start 1]).throttle =
      some { runId := 0, capturedFirstLine := str "foo", capturedRemainingLines := [] } ∧
    (runEvents [.start 0, .chunk 0 (str "foo"), .start 1, .fireThrottle]).firstLinePreview =
      str "foo" := by
  decide

theorem find?_map_update (id : Nat) (r q : StreamRun) (hq : q.id = r.id) :
    ∀ (l : List StreamRun), l.find? (fun x => x.id == id) = some r →
      (l.map (fun x => if x.id == q.id then q else x)).find? (fun x => x.id == id) =
        some q := by
  intro l
  induction l with
  | nil => intro h; simp at h
  | cons a t ih =>
    intro h
    have hrid : r.id = id := by
      have := List.find?_some h
      simpa using this
    rw [List.map_cons]
    by_cases ha : a.id = id
    · have haeq : a = r := by
        rw [List.find?_cons_of_pos _ (by simpa using ha)] at h
        exact Option.some.inj h
      have hhead : (if a.id == q.id then q else a) = q := by
        rw [if_pos (by rw [haeq, hq]; simp)]
      rw [hhead]
      rw [List.find?_cons_of_pos _ (by simp [hq, hrid])]
    · have ht : t.find? (fun x => x.id == id) = some r := by
        rw [List.find?_cons_of_neg _ (by simpa using ha)] at h
        exact h
      have hne : ¬ (a.id = q.id) := by
        rw [hq, hrid]
        exact ha
      have hhead : (if a.id == q.id then q else a) = a := by
        rw [if_neg (by simpa using hne)]
      rw [hhead]
      rw [List.find?_cons_of_neg _ (by simpa using ha)]
      exact ih ht

theorem findRun_updateRun (w : ProviderWorld) (id : Nat) (r q : StreamRun)
    (hq : q.id = r.id) (hfind : findRun w id = some r) :
    findRun (updateRun w q) id = some q := by
  unfold findRun at hfind ⊢
  unfold updateRun
  exact find?_map_update id r q hq w.runs hfind

theorem C2_supersession_amended (w : ProviderWorld) (id : Nat) (text : Str)
    (r : StreamRun) (hfind : findRun w id = some r) (hdone : r.done = false)
    (hactive : w.activeCompletionId ≠ some id) :
    SupersededChunkBehaviour w id text r := by
  have hstep : stepChunk w id text =
      { updateRun w { r with isCancelled := true, done := true } with
          firstLinePreview := (splitCompletion r.completion).1
          remainingLinesPreview := (splitCompletion r.completion).2 } := by
    unfold stepChunk
    rw [hfind]
    simp only [hdone, Bool.false_eq_true, if_false, if_pos hactive]
  refine ⟨hstep, ?_, ?_, ?_⟩
  · rw [hstep]; simp [updateRun]
  · rw [hstep]; simp [updateRun]
  · rw [hstep]
    have : findRun { updateRun w { r with isCancelled := true, done := true } with
        firstLinePreview := (splitCompletion r.completion).1
        remainingLinesPreview := (splitCompletion r.completion).2 } id =
        findRun (updateRun w { r with isCancelled := true, done := true }) id := rfl
    rw [this]
    exact findRun_updateRun w id r _ rfl hfind

/-- C2 witness: the amended theorem applied to the concrete superseded
world, with run A's next chunk "bar". -/
theorem C2_supersession_witness :
    SupersededChunkBehaviour supersededWorld 0 (str "bar") supersededRun :=
  C2_supersession_amended supersededWorld 0 (str "bar") supersededRun
    (by decide) (by decide) (by decide)

/-- C3: template selection is total and case-insensitive.  `getTemplateForModel`
lower-cases the identifier before matching, so it agrees with itself on the
lower-cased identifier — in particular on "Qwen2.5-Coder-7B" versus
"qwen2.5-coder-7b", both selecting the Qwen coder FIM template — it is a total
function (it never throws by construction), and every identifier matched by
none of the substring rules receives the default stable-code FIM template. -/
theorem C3_template_selection :
    (∀ model : Str, getTemplateForModel model = getTemplateForModel (toLowerStr model)) ∧
    (getTemplateForModel (str "Qwen2.5-Coder-7B") =
        getTemplateForModel (str "qwen2.5-coder-7b") ∧
      getTemplateForModel (str "Qwen2.5-Coder-7B") = .qwenCoderFim) ∧
    (∀ model : Str, matchesNoTemplateRule model = true →
      getTemplateForModel model = .stableCodeFim) := by
  refine ⟨?_, by decide, ?_⟩
  · intro model
    unfold getTemplateForModel
    rw [toLowerStr_idem]
  · intro model h
    unfold matchesNoTemplateRule at h
    repeat rw [Bool.and_eq_true] at h
    obtain ⟨⟨⟨⟨⟨⟨⟨⟨⟨h1, h2⟩, h3⟩, h4⟩, h5⟩, h6⟩, h7⟩, h8⟩, h9⟩, h10⟩ := h
    rw [Bool.not_eq_true'] at h1 h2 h3 h4 h5 h6 h7 h8 h9 h10
    simp only [getTemplateForModel]
    simp only [h1, h2, h3, h4, h5, h6, h7, h8, h9, h10, Bool.false_eq_true,
      if_false]

/-- C3 witness: the rule-free and mixed-case parts of the selection theorem at
concrete identifiers. -/
theorem C3_template_selection_witness :
    matchesNoTemplateRule (str "unknown-model-xyz") = true ∧
    getTemplateForModel (str "unknown-model-xyz") = .stableCodeFim ∧
    getTemplateForModel (str "Gemini-Flash-1.0") =
      getTemplateForModel (toLowerStr (str "Gemini-Flash-1.0")) :=
  ⟨by decide, C3_template_selection.2.2 (str "unknown-model-xyz") (by decide),
    C3_template_selection.1 (str "Gemini-Flash-1.0")⟩

/-- `setCompletionText` on a cleaned text stores halves that rejoin to the
stored `currentPreview`. -/
theorem setCompletionText_rejoin (st : CompletionState) (raw : Str) :
    rejoinPreview
        (st.setCompletionText (cleanMarkdownCodeBlocks raw)).firstLinePreview
        (st.setCompletionText (cleanMarkdownCodeBlocks raw)).remainingLinesPreview =
      (st.setCompletionText (cleanMarkdownCodeBlocks raw)).currentPreview := by
  unfold CompletionState.setCompletionText
  rcases h : splitLines (cleanMarkdownCodeBlocks raw) with _ | ⟨l, ls⟩
  · exact absurd h (splitOnChar_ne_nil _ _)
  · cases ls with
    | nil =>
      simp only [h, List.length_cons, List.length_nil]
      rw [if_neg (by omega)]
      simp [rejoinPreview]
    | cons l2 ls2 =>
      simp only [h, List.length_cons]
      rw [if_pos (by omega)]
      simp only [List.headD, List.tail]
      rcases hrem : joinLines (l2 :: ls2) with _ | ⟨r, rs⟩
      · exfalso
        obtain ⟨hl2, hls2⟩ := joinLines_cons_eq_nil hrem
        subst hl2; subst hls2
        have ht := joinLines_two_eq (cleanMarkdownCodeBlocks raw) h
        simp only [joinLines, joinWith] at ht
        have hlast : (cleanMarkdownCodeBlocks raw).getLast? = some '\n' := by
          rw [← ht]
          exact List.getLast?_concat _
        have := clean_getLast_not_ws hlast
        simp [jsWhitespace] at this
      · rw [← hrem]
        have hne : joinLines (l2 :: ls2) ≠ [] := by rw [hrem]; simp
        rw [rejoinPreview, if_neg hne]
        exact joinLines_two_eq (cleanMarkdownCodeBlocks raw) h

/-- C4: the split invariant.  For every input text, the halves produced by
`splitCompletion` rejoin — first line, plus a newline and the remaining lines
when those are non-empty — to exactly the markdown-cleaned text; and
`CompletionState.setCompletionText`, applied to a cleaned text as the stream
processor does, stores `firstLinePreview`/`remainingLinesPreview` that rejoin
to the stored `currentPreview`. -/
theorem C4_split_invariant :
    (∀ text : Str,
      rejoinPreview (splitCompletion text).1 (splitCompletion text).2 =
        cleanMarkdownCodeBlocks text) ∧
    (∀ (st : CompletionState) (raw : Str),
      rejoinPreview
          (st.setCompletionText (cleanMarkdownCodeBlocks raw)).firstLinePreview
          (st.setCompletionText (cleanMarkdownCodeBlocks raw)).remainingLinesPreview =
        (st.setCompletionText (cleanMarkdownCodeBlocks raw)).currentPreview) :=
  ⟨rejoin_splitCompletion, setCompletionText_rejoin⟩

/-- C5: the claim is false on the code.  Cleaning is not idempotent: on
"a\n```\n```\nb" one cleaning yields "a\n```\nb" (the third regex consumed
the closing newline of its first match, so the second fence survives), and
cleaning again yields "a\nb".  Moreover a string with no fence artifact at
all, " a ", is still changed by cleaning, because of the final trim. -/
theorem C5_markdown_cleaning_counterexample :
    cleanMarkdownCodeBlocks (str "a\n```\n```\nb") = str "a\n```\nb" ∧
    cleanMarkdownCodeBlocks (cleanMarkdownCodeBlocks (str "a\n```\n```\nb")) ≠
      cleanMarkdownCodeBlocks (str "a\n```\n```\nb") ∧
    (hasFence (str " a ") = false ∧ cleanMarkdownCodeBlocks (str " a ") ≠ str " a ") := by
  decide

/-- C5 (amended): cleaning "```ts\nconst x=1\n```" yields "const x=1", and
cleaning leaves unchanged every string that contains no triple-backtick
fence and has no leading or trailing whitespace (hence cleaning is
idempotent on such strings); idempotence does not hold for arbitrary
strings. -/
theorem C5_markdown_cleaning_amended :
    cleanMarkdownCodeBlocks (str "```ts\nconst x=1\n```") = str "const x=1" ∧
    (∀ s : Str, hasFence s = false → noEdgeWhitespace s = true →
      cleanMarkdownCodeBlocks s = s) := by
  refine ⟨by decide, ?_⟩
  intro s hf hw
  exact cleanMarkdownCodeBlocks_eq_self hf hw

/-- C5 witness: the amended fixed-point statement at a concrete clean
string. -/
theorem C5_markdown_cleaning_witness :
    hasFence (str "const x=1") = false ∧ noEdgeWhitespace (str "const x=1") = true ∧
    cleanMarkdownCodeBlocks (str "const x=1") = str "const x=1" :=
  ⟨by decide, by decide,
    C5_markdown_cleaning_amended.2 (str "const x=1") (by decide) (by decide)⟩

/-- C6: two-stage acceptance.  For every preview produced by
`splitCompletion` with non-empty remaining lines and the first line not yet
accepted, the accept command inserts exactly the first line, marks the first
line accepted while leaving the remaining lines available, and a second
accept inserts exactly the remaining lines and resets all preview state.
(The preview halves come from `splitCompletion`, whose cleaned text is
trimmed, so the first line of a multi-line preview is never empty and the
insertion really happens.) -/
theorem C6_two_stage_acceptance (raw : Str) (st : ProviderPreviewState)
    (hfirst : st.firstLinePreview = (splitCompletion raw).1)
    (hrem : st.remainingLinesPreview = (splitCompletion raw).2)
    (hacc : st.hasAcceptedFirstLine = false)
    (hmulti : st.remainingLinesPreview ≠ []) :
    TwoStageAcceptance st := by
  have hfne : st.firstLinePreview ≠ [] := by
    rw [hfirst]
    exact splitCompletion_first_ne_nil (by rw [← hrem]; exact hmulti)
  have h1 : acceptAutocompletePreview st =
      ({ st with hasAcceptedFirstLine := true }, some st.firstLinePreview) := by
    unfold acceptAutocompletePreview
    rw [if_pos ⟨hacc, hmulti⟩, if_pos hfne]
  have h2 : acceptAutocompletePreview { st with hasAcceptedFirstLine := true } =
      (clearAutocompletePreview st, some st.remainingLinesPreview) := by
    unfold acceptAutocompletePreview
    rw [if_neg (by simp)]
    rw [if_pos ⟨rfl, hmulti⟩]
    rfl
  refine ⟨?_, ?_, ?_, ?_, ?_, ?_⟩ <;> rw [h1] <;> simp <;> rw [h2]

/-- C6 witness: the two-stage theorem at the specification's example
preview. -/
theorem C6_two_stage_acceptance_witness : TwoStageAcceptance twoStageStateEx :=
  C6_two_stage_acceptance twoStageRawEx twoStageStateEx
    (by decide) (by decide) rfl (by decide)

/-- C7: error containment at the façade.  Whenever any stage of the
completion pipeline — context gathering, snippet assembly, prompt rendering
or stream consumption — raises an error, and the façade actually runs the
pipeline (it is not serving a previously accepted first line's remainder),
`provideInlineCompletionItems` resolves to no suggestion rather than
propagating the exception: its `catch` clause maps every pipeline error to
`null`. -/
theorem C7_error_containment (st : ProviderPreviewState)
    (gatherContext : Except CompletionError CodeContext)
    (assembleSnippets : CodeContext → Except CompletionError (List AutocompleteSnippet))
    (renderPrompt : CodeContext → List AutocompleteSnippet → Except CompletionError (Str × Str))
    (consumeStream : Str × Str → Except CompletionError (Option Str))
    (e : CompletionError)
    (hpipe : generateCompletionTextPipeline gatherContext assembleSnippets
      renderPrompt consumeStream = .error e)
    (hfresh : st.hasAcceptedFirstLine = false ∨ st.remainingLinesPreview = []) :
    provideInlineCompletionItems st
      (generateCompletionTextPipeline gatherContext assembleSnippets
        renderPrompt consumeStream) = none := by
  rw [hpipe]
  unfold provideInlineCompletionItems provideInlineTryBlock
  have hng : ¬ (st.hasAcceptedFirstLine = true ∧ st.remainingLinesPreview ≠ []) := by
    rcases hfresh with h | h
    · intro hc
      rw [h] at hc
      exact absurd hc.1 (by simp)
    · intro hc
      exact hc.2 h
  rw [if_neg hng]
  rfl

/-- C7 witness: a context-gathering error at a fresh façade state resolves to
no suggestion. -/
theorem C7_error_containment_witness :
    provideInlineCompletionItems
      { currentAutocompletePreview := [], firstLinePreview := []
        remainingLinesPreview := [], hasAcceptedFirstLine := false
        isShowingAutocompletePreview := false, isLoadingCompletion := false }
      (generateCompletionTextPipeline (.error .contextGather)
        (fun _ => .ok []) (fun _ _ => .ok ([], [])) (fun _ => .ok none)) = none :=
  C7_error_containment _ _ _ _ _ CompletionError.contextGather rfl (Or.inl rfl)

/-- C8: non-empty suffix guarantee.  For every `CodeContext` the suffix built
by `renderPrompt` is defaulted to a single newline when empty, before any
`compilePrefixSuffix` function or the template receives it; both multifile
`compilePrefixSuffix` functions pass the suffix through unchanged, so the
suffix handed to the template and returned in the result is never empty —
for every choice of the (absent) uri path helpers. -/
theorem C8_nonempty_suffix (templateId : TemplateId) (getLastN : Str → Str)
    (relPaths : List Str → List RelPathEntry) (context : CodeContext)
    (filepath : Str) (snippets : List AutocompleteSnippet) :
    (context.followingLines = [] → buildSuffix context = str "\n") ∧
    buildSuffix context ≠ [] ∧
    (renderPromptPrefixSuffix templateId getLastN relPaths context
      filepath snippets).2 = buildSuffix context ∧
    (renderPromptPrefixSuffix templateId getLastN relPaths context
      filepath snippets).2 ≠ [] := by
  have hb : buildSuffix context ≠ [] := by
    simp only [buildSuffix]
    split <;> simp [str]
  have hpres : (renderPromptPrefixSuffix templateId getLastN relPaths context
      filepath snippets).2 = buildSuffix context := by
    cases templateId <;>
      simp only [renderPromptPrefixSuffix, codestralCompilePrefixSuffix,
        mercuryCompilePrefixSuffix] <;>
      (repeat' split) <;> rfl
  refine ⟨?_, hb, hpres, by rw [hpres]; exact hb⟩
  intro h
  simp [buildSuffix, h]

/-- C8 witness: the theorem at a context with no following lines, the
codestral multifile template and trivial path helpers. -/
theorem C8_nonempty_suffix_witness :
    ({ currentLine := str "const a = ", precedingLines := [], followingLines := []
       imports := [], definitions := [] } : CodeContext).followingLines = [] ∧
    buildSuffix { currentLine := str "const a = ", precedingLines := []
                  followingLines := [], imports := [], definitions := [] } = str "\n" ∧
    (renderPromptPrefixSuffix .codestralMultifileFim (fun _ => []) (fun _ => [])
      { currentLine := str "const a = ", precedingLines := [], followingLines := []
        imports := [], definitions := [] } (str "/test/file.ts") []).2 ≠ [] := by
  refine ⟨rfl, ?_, ?_⟩
  · exact (C8_nonempty_suffix .codestralMultifileFim (fun _ => []) (fun _ => [])
      { currentLine := str "const a = ", precedingLines := [], followingLines := []
        imports := [], definitions := [] } (str "/test/file.ts") []).1 rfl
  · exact (C8_nonempty_suffix .codestralMultifileFim (fun _ => []) (fun _ => [])
      { currentLine := str "const a = ", precedingLines := [], followingLines := []
        imports := [], definitions := [] } (str "/test/file.ts") []).2.2.2

/-- C9: snippet assembly order and locators.  With imports and definitions
enabled, the generated list is exactly one Context snippet per import line,
in source order, tagged with the synthetic locator
context://imports/<basename>#<index>, followed by one Code snippet per
definition, in source order, carrying the definition's real filepath. -/
theorem C9_snippet_assembly (codeContext : CodeContext) (currentFilepath : Str) :
    (generateAutocompleteSnippets codeContext true true currentFilepath).length =
      codeContext.imports.length + codeContext.definitions.length ∧
    (∀ i, i < codeContext.imports.length →
      (generateAutocompleteSnippets codeContext true true currentFilepath)[i]? =
        Option.map
          (fun importStatement =>
            ({ type := .context, content := importStatement
               filepath := str "context://imports/" ++
                 getUriPathBasename currentFilepath ++
                 '#' :: natToStr i } : AutocompleteSnippet))
          codeContext.imports[i]?) ∧
    (∀ j, j < codeContext.definitions.length →
      (generateAutocompleteSnippets codeContext true true
        currentFilepath)[codeContext.imports.length + j]? =
        Option.map
          (fun d =>
            ({ type := .code, filepath := d.filepath
               content := d.content } : AutocompleteSnippet))
          codeContext.definitions[j]?) := by
  simp only [generateAutocompleteSnippets, if_pos]
  refine ⟨?_, ?_, ?_⟩
  · simp [mapWithIdx_length]
  · intro i hi
    rw [List.getElem?_append]
    rw [if_pos (by rw [mapWithIdx_length]; exact hi)]
    rw [mapWithIdx_getElem?]
    simp
  · intro j hj
    rw [List.getElem?_append]
    rw [if_neg (by rw [mapWithIdx_length]; omega)]
    rw [mapWithIdx_length, Nat.add_sub_cancel_left]
    simp

/-- C9 witness: the assembly theorem at a concrete context, checking the
second import and the first definition. -/
theorem C9_snippet_assembly_witness :
    (generateAutocompleteSnippets snippetContextEx true true
        (str "/test/file.ts")).length = 3 ∧
    (generateAutocompleteSnippets snippetContextEx true true (str "/test/file.ts"))[1]? =
      Option.map
        (fun importStatement =>
          ({ type := .context, content := importStatement
             filepath := str "context://imports/" ++
               getUriPathBasename (str "/test/file.ts") ++
               '#' :: natToStr 1 } : AutocompleteSnippet))
        snippetContextEx.imports[1]? ∧
    (generateAutocompleteSnippets snippetContextEx true true (str "/test/file.ts"))[2]? =
      Option.map
        (fun d =>
          ({ type := .code, filepath := d.filepath
             content := d.content } : AutocompleteSnippet))
        snippetContextEx.definitions[0]? :=
  ⟨(C9_snippet_assembly snippetContextEx (str "/test/file.ts")).1,
   (C9_snippet_assembly snippetContextEx (str "/test/file.ts")).2.1 1 (by decide),
   (C9_snippet_assembly snippetContextEx (str "/test/file.ts")).2.2 0 (by decide)⟩

theorem applyOp_preserves_loadShow (st : CompletionState) (op : CompletionStateOp)
    (h : st.LoadShowExclusive) : (st.applyOp op).LoadShowExclusive := by
  cases op <;>
    simp only [CompletionState.applyOp, CompletionState.startCompletion,
      CompletionState.setCompletionText, CompletionState.updatePreview,
      CompletionState.acceptFirstLine, CompletionState.showPreview,
      CompletionState.hidePreview, CompletionState.stopLoading,
      CompletionState.cancelCompletion, CompletionState.reset,
      CompletionState.clear, CompletionState.LoadShowExclusive] at h ⊢ <;>
    first
      | exact h
      | (split <;> exact h)
      | tauto

theorem foldl_applyOp_loadShow (ops : List CompletionStateOp) :
    ∀ st : CompletionState, st.LoadShowExclusive →
      (ops.foldl CompletionState.applyOp st).LoadShowExclusive := by
  induction ops with
  | nil => intro st h; exact h
  | cons op rest ih =>
    intro st h
    exact ih (st.applyOp op) (applyOp_preserves_loadShow st op h)

/-- C10: the implicit CompletionState invariant.  The initial state satisfies
"never loading and showing the preview at once", every public operation
preserves the invariant, `showPreview` establishes the visible/not-loading
combination in one step, and consequently every sequence of public
operations from the initial state maintains the invariant. -/
theorem C10_load_show_invariant :
    CompletionState.LoadShowExclusive CompletionState.initial ∧
    (∀ (st : CompletionState) (op : CompletionStateOp),
      st.LoadShowExclusive → (st.applyOp op).LoadShowExclusive) ∧
    (∀ st : CompletionState,
      (st.showPreview).isShowingPreview = true ∧ (st.showPreview).isLoading = false) ∧
    (∀ ops : List CompletionStateOp,
      (ops.foldl CompletionState.applyOp CompletionState.initial).LoadShowExclusive) := by
  refine ⟨Or.inl rfl, applyOp_preserves_loadShow, ?_, ?_⟩
  · intro st
    exact ⟨rfl, rfl⟩
  · intro ops
    exact foldl_applyOp_loadShow ops CompletionState.initial (Or.inl rfl)

/-- C10 witness: invariant preservation applied at the initial state under a
concrete operation sequence. -/
theorem C10_load_show_invariant_witness :
    (CompletionState.applyOp
      (CompletionState.applyOp CompletionState.initial
        (.startCompletion (str "id-1"))) .showPreview).LoadShowExclusive :=
  C10_load_show_invariant.2.1 _ _
    (C10_load_show_invariant.2.1 _ _ C10_load_show_invariant.1)
